import Mathlib

/-!
Verification of the streaming transcription core of `subtitles.py`.

`transcribe_audio` feeds an in-memory audio buffer to a stateful
speech-recognition engine in fixed-size windows and converts the engine's
per-window results into word-level subtitle entries on a global timeline.

The engine (Vosk's `KaldiRecognizer`) is external; it is modelled as a
function from window index to the response of the
`AcceptWaveform`/`Result` pair for that window: either a
`RecognitionResult` or a raised `EngineRuntimeError`.  Word timestamps
(floating-point numbers in the JSON the engine returns) are modelled as
rationals.
-/

/-- One entry of `result["result"]` in the engine's JSON output: a recognized
word with start/end seconds relative to the engine's current segment. -/
structure WordInfo where
  word : String
  start : ℚ
  end_ : ℚ
  deriving DecidableEq

/-- The engine's response for one fed window, combining the boolean returned
by `AcceptWaveform` (`isFinal`) with the decoded JSON of `Result()`: the
overall `text` and the word list `result` (empty when the JSON carries no
`result` key). -/
structure RecognitionResult where
  isFinal : Bool
  text : String
  result : List WordInfo
  deriving DecidableEq

/-- An engine error raised during a feed call (spec: `EngineRuntimeError`). -/
structure EngineRuntimeError where
  msg : String
  deriving DecidableEq

/-- Python's `str.strip()`: the string with leading and trailing whitespace
removed. -/
def pyStrip (s : String) : String :=
  ⟨((s.data.dropWhile Char.isWhitespace).reverse.dropWhile Char.isWhitespace).reverse⟩

/-- `chunk_size = 8000`: the window size in samples (line 45). -/
def chunk_size : Nat := 8000

/-- The number of iterations of `for i in range(0, len(audio_data),
chunk_size)` (line 48): the number of windows the buffer is cut into. -/
def numWindows (len c : Nat) : Nat := (len + c - 1) / c

/-- The loop state of `transcribe_audio`: the accumulated `subtitles` list,
the running `segment_start` offset, and the trace of results printed by the
debug `print` call (line 52). -/
abbrev LoopState := List (ℚ × ℚ × String) × ℚ × List RecognitionResult

/-- Lines 50-61 of `transcribe_audio`: process the engine's response to one
window.  A non-final response is ignored.  A final one is printed when
`debug` is set; when its stripped text is non-empty its words are appended
with the current offset added to their times, and `segment_start` advances
by 3. -/
def processResult (debug : Bool) (st : LoopState) (r : RecognitionResult) :
    LoopState :=
  if r.isFinal then
    let printed := if debug then st.2.2 ++ [r] else st.2.2
    if pyStrip r.text ≠ "" then
      (st.1 ++ r.result.map (fun w => (st.2.1 + w.start, st.2.1 + w.end_, w.word)),
        st.2.1 + 3, printed)
    else (st.1, st.2.1, printed)
  else st

/-- The feed loop of `transcribe_audio` (lines 48-61): windows
`i, i + 1, …, i + n - 1` are fed in order.  An engine error raised by a
feed call aborts the whole run, as the uncaught Python exception does. -/
def feedWindows (responses : Nat → Except EngineRuntimeError RecognitionResult)
    (debug : Bool) : Nat → Nat → LoopState → Except EngineRuntimeError LoopState
  | _, 0, st => .ok st
  | i, n + 1, st =>
    match responses i with
    | .error e => .error e
    | .ok r => feedWindows responses debug (i + 1) n (processResult debug st r)

/-- `transcribe_audio` (lines 35-64): cut the buffer into `chunk_size`-sample
windows, feed them in order, and return the accumulated subtitle list.
`sample_rate` and `model_path` only configure the engine session, which is
abstracted by `responses`. -/
def transcribe_audio (audio : List Int) (sample_rate : Nat)
    (responses : Nat → Except EngineRuntimeError RecognitionResult)
    (model_path : String) (debug : Bool) :
    Except EngineRuntimeError (List (ℚ × ℚ × String)) :=
  (feedWindows responses debug 0 (numWindows audio.length chunk_size)
    ([], 0, [])).map (fun st => st.1)

/-- The window slices `audio_data[i:i+chunk_size]` taken by the loop head
(line 49), one per iteration. -/
def windowsAux (c : Nat) : List Int → Nat → List (List Int)
  | _, 0 => []
  | a, n + 1 => a.take c :: windowsAux c (a.drop c) n

/-- The sequence of windows the loop cuts a buffer into. -/
def windows (audio : List Int) (c : Nat) : List (List Int) :=
  windowsAux c audio (numWindows audio.length c)

/-- The spec's literal scenario engine: window 1 not final, window 2 final
with text "hello world" and two timed words, window 3 final with empty
text. -/
def scenarioResponses : Nat → Except EngineRuntimeError RecognitionResult
  | 1 => .ok ⟨true, "hello world", [⟨"hello", 0, 2/5⟩, ⟨"world", 1/2, 9/10⟩]⟩
  | 2 => .ok ⟨true, "", []⟩
  | _ => .ok ⟨false, "", []⟩

/-- Does a response advance `segment_start`?  Lines 50-61: it does exactly
when it is final and its stripped text is non-empty. -/
def advancesOffset (r : RecognitionResult) : Bool :=
  r.isFinal && (pyStrip r.text != "")

/-- The number of offset-advancing responses among windows
`i, i + 1, …, i + n - 1`. -/
def countAdvancing
    (responses : Nat → Except EngineRuntimeError RecognitionResult) :
    Nat → Nat → Nat
  | _, 0 => 0
  | i, n + 1 =>
    (match responses i with
      | .ok r => if advancesOffset r then 1 else 0
      | .error _ => 0) + countAdvancing responses (i + 1) n

/-- The spec's ordering predicate: subtitle entries are non-decreasing in
their start time. -/
def sortedByStart (l : List (ℚ × ℚ × String)) : Prop :=
  l.Pairwise (fun a b => a.1 ≤ b.1)

/-- A one-window engine that reports its words with decreasing starts. -/
def unsortedResponses : Nat → Except EngineRuntimeError RecognitionResult
  | _ => .ok ⟨true, "b a", [⟨"b", 1, 2⟩, ⟨"a", 0, 1⟩]⟩

/-- An engine result is tame when its words come in non-decreasing start
order and every relative start lies between 0 and the 3-second offset
step. -/
def tameResult (r : RecognitionResult) : Prop :=
  r.result.Pairwise (fun a b => a.start ≤ b.start) ∧
  ∀ w ∈ r.result, 0 ≤ w.start ∧ w.start ≤ 3

/-- An engine that succeeds on window 0 and raises on every later window. -/
def failResponses : Nat → Except EngineRuntimeError RecognitionResult
  | 0 => .ok ⟨false, "", []⟩
  | _ => .error ⟨"engine failure"⟩

/-- C1: on a 20000-sample buffer cut into 3 windows, with the engine
answering: window 1 not final; window 2 final, text "hello world", words
("hello", 0, 0.4) and ("world", 0.5, 0.9); window 3 final, empty text —
`transcribe_audio` returns exactly the entries (0, 0.4, "hello") and
(0.5, 0.9, "world"), and the segment offset is 0 after window 1, 3 after
window 2 and still 3 after window 3: it ends at 3, advanced exactly once. -/
theorem scenario_literal :
    transcribe_audio (List.replicate 20000 0) 16000 scenarioResponses
        "vosk-model-small-en-us-0.15" false =
      .ok [(0, 2/5, "hello"), (1/2, 9/10, "world")] ∧
    feedWindows scenarioResponses false 0 1 ([], 0, []) = .ok ([], 0, []) ∧
    feedWindows scenarioResponses false 0 2 ([], 0, []) =
      .ok ([(0, 2/5, "hello"), (1/2, 9/10, "world")], 3, []) ∧
    feedWindows scenarioResponses false 0 3 ([], 0, []) =
      .ok ([(0, 2/5, "hello"), (1/2, 9/10, "world")], 3, []) := by
  have hlen : (List.replicate 20000 (0 : Int)).length = 20000 :=
    List.length_replicate 20000 0
  have hn : numWindows 20000 chunk_size = 3 := rfl
  have h1 : pyStrip "" = "" := by decide
  have h2 : ¬ pyStrip "hello world" = "" := by decide
  refine ⟨?_, ?_, ?_, ?_⟩
  · unfold transcribe_audio
    rw [hlen, hn]
    norm_num [feedWindows, processResult, scenarioResponses, h1, h2]
    rfl
  · norm_num [feedWindows, processResult, scenarioResponses, h1, h2]
  · norm_num [feedWindows, processResult, scenarioResponses, h1, h2]
  · norm_num [feedWindows, processResult, scenarioResponses, h1, h2]

/-- C6: transcribing an empty audio buffer yields `.ok []` — an empty
subtitle sequence, never an error — for every sample rate, engine and
configuration. -/
theorem empty_buffer_ok (sample_rate : Nat)
    (responses : Nat → Except EngineRuntimeError RecognitionResult)
    (model_path : String) (debug : Bool) :
    transcribe_audio [] sample_rate responses model_path debug = .ok [] := rfl

/-- C5: a non-final engine response is discarded: the loop body leaves the
whole state (entries, offset, debug prints) unchanged and the loop simply
moves on to the next window instead of failing. -/
theorem nonfinal_window_noop (debug : Bool) (st : LoopState)
    (r : RecognitionResult)
    (responses : Nat → Except EngineRuntimeError RecognitionResult) (i n : Nat)
    (hfin : r.isFinal = false) (hresp : responses i = .ok r) :
    processResult debug st r = st ∧
    feedWindows responses debug i (n + 1) st =
      feedWindows responses debug (i + 1) n st := by
  have hp : processResult debug st r = st := by simp [processResult, hfin]
  exact ⟨hp, by simp [feedWindows, hresp, hp]⟩

/-- Witness for `nonfinal_window_noop` at window 0 of the spec scenario. -/
theorem nonfinal_window_noop_witness :
    processResult false ([], 0, []) ⟨false, "", []⟩ = ([], 0, []) ∧
    feedWindows scenarioResponses false 0 1 ([], 0, []) =
      feedWindows scenarioResponses false 1 0 ([], 0, []) :=
  nonfinal_window_noop false ([], 0, []) ⟨false, "", []⟩ scenarioResponses 0 0
    rfl rfl

/-- C4: a final engine response whose stripped text is empty contributes no
subtitle entries and leaves `segment_start` unchanged; the loop moves on to
the next window. -/
theorem silence_window_noop (debug : Bool) (st : LoopState)
    (r : RecognitionResult)
    (responses : Nat → Except EngineRuntimeError RecognitionResult) (i n : Nat)
    (hfin : r.isFinal = true) (hsil : pyStrip r.text = "")
    (hresp : responses i = .ok r) :
    (processResult debug st r).1 = st.1 ∧
    (processResult debug st r).2.1 = st.2.1 ∧
    feedWindows responses debug i (n + 1) st =
      feedWindows responses debug (i + 1) n (processResult debug st r) := by
  refine ⟨?_, ?_, ?_⟩
  · simp [processResult, hfin, hsil]
  · simp [processResult, hfin, hsil]
  · simp [feedWindows, hresp]

/-- Witness for `silence_window_noop` at window 2 of the spec scenario. -/
theorem silence_window_noop_witness :
    (processResult false ([], 0, []) ⟨true, "", []⟩).1 = [] ∧
    (processResult false ([], 0, []) ⟨true, "", []⟩).2.1 = 0 ∧
    feedWindows scenarioResponses false 2 1 ([], 0, []) =
      feedWindows scenarioResponses false 3 0
        (processResult false ([], 0, []) ⟨true, "", []⟩) :=
  silence_window_noop false ([], 0, []) ⟨true, "", []⟩ scenarioResponses 2 0
    rfl (by decide) rfl

/-- The loop body either adds exactly 3 to `segment_start` (offset-advancing
response) or leaves it unchanged. -/
theorem processResult_offset (d : Bool) (st : LoopState)
    (r : RecognitionResult) :
    (processResult d st r).2.1 =
      if advancesOffset r then st.2.1 + 3 else st.2.1 := by
  by_cases hf : r.isFinal <;> by_cases hs : pyStrip r.text = "" <;>
    simp [processResult, advancesOffset, hf, hs]

/-- Running the loop adds `3 * countAdvancing` to the offset. -/
theorem feedWindows_offset
    (responses : Nat → Except EngineRuntimeError RecognitionResult) (d : Bool) :
    ∀ n i st st2, feedWindows responses d i n st = .ok st2 →
      st2.2.1 = st.2.1 + 3 * countAdvancing responses i n := by
  intro n
  induction n with
  | zero =>
    intro i st st2 h
    simp only [feedWindows] at h
    cases h
    simp [countAdvancing]
  | succ n ih =>
    intro i st st2 h
    simp only [feedWindows] at h
    cases hr : responses i with
    | error e => rw [hr] at h; cases h
    | ok r =>
      rw [hr] at h
      have hrec := ih (i + 1) _ _ h
      rw [hrec, processResult_offset]
      simp only [countAdvancing, hr]
      by_cases ha : advancesOffset r <;> simp [ha] <;> push_cast <;> ring

/-- Splitting a count of advancing responses at an intermediate window. -/
theorem countAdvancing_add
    (responses : Nat → Except EngineRuntimeError RecognitionResult) :
    ∀ a i b, countAdvancing responses i (a + b) =
      countAdvancing responses i a + countAdvancing responses (i + a) b := by
  intro a
  induction a with
  | zero => intro i b; simp [countAdvancing]
  | succ a ih =>
    intro i b
    have h1 : a + 1 + b = (a + b) + 1 := by omega
    rw [h1]
    simp only [countAdvancing, ih (i + 1) b]
    have h2 : i + 1 + a = i + (a + 1) := by omega
    rw [h2]
    omega

/-- C3: over any run of the loop from the initial state, the segment offset
is exactly 3 times the number of finalized, non-empty-text responses seen so
far — it starts at 0 (`countAdvancing _ _ 0 = 0`), advances by exactly the
fixed step of 3 for each qualifying response regardless of its word count,
and is non-decreasing along the run. -/
theorem offset_step_function
    (responses : Nat → Except EngineRuntimeError RecognitionResult) (d : Bool)
    (n : Nat) (st : LoopState)
    (h : feedWindows responses d 0 n ([], 0, []) = .ok st) :
    st.2.1 = 3 * countAdvancing responses 0 n ∧
    ∀ m stm, m ≤ n → feedWindows responses d 0 m ([], 0, []) = .ok stm →
      stm.2.1 ≤ st.2.1 := by
  have h1 := feedWindows_offset responses d n 0 _ _ h
  constructor
  · simpa using h1
  · intro m stm hm hfm
    have h2 := feedWindows_offset responses d m 0 _ _ hfm
    have hc : countAdvancing responses 0 m ≤ countAdvancing responses 0 n := by
      have hsplit := countAdvancing_add responses m 0 (n - m)
      have hnm : m + (n - m) = n := by omega
      rw [hnm] at hsplit
      omega
    rw [h1, h2]
    simp only [zero_add]
    have hcast : (countAdvancing responses 0 m : ℚ) ≤ countAdvancing responses 0 n :=
      Nat.cast_le.mpr hc
    linarith

/-- Witness for `offset_step_function` on the spec scenario: after the three
windows the offset is `3 * 1 = 3`. -/
theorem offset_step_function_witness :
    (([(0, 2/5, "hello"), (1/2, 9/10, "world")], (3 : ℚ),
        ([] : List RecognitionResult)) : LoopState).2.1 =
      3 * countAdvancing scenarioResponses 0 3 ∧
    ∀ m stm, m ≤ 3 → feedWindows scenarioResponses false 0 m ([], 0, []) = .ok stm →
      stm.2.1 ≤ (([(0, 2/5, "hello"), (1/2, 9/10, "world")], (3 : ℚ),
        ([] : List RecognitionResult)) : LoopState).2.1 :=
  offset_step_function scenarioResponses false 3 _ (by
    have h1 : pyStrip "" = "" := by decide
    have h2 : ¬ pyStrip "hello world" = "" := by decide
    norm_num [feedWindows, processResult, scenarioResponses, h1, h2])

/-- C2 counterexample: with a 1-sample buffer and an engine whose single
final result lists its words with decreasing starts, `transcribe_audio`
returns the entries in engine order, which is not non-decreasing in start:
the ordering invariant does not hold for every sequence of engine
responses. -/
theorem output_sorted_counterexample :
    transcribe_audio [0] 16000 unsortedResponses "m" false =
      .ok [(1, 2, "b"), (0, 1, "a")] ∧
    ¬ sortedByStart [(1, 2, "b"), (0, 1, "a")] := by
  constructor
  · have h2 : ¬ pyStrip "b a" = "" := by decide
    have hn : numWindows ([(0 : Int)]).length chunk_size = 1 := rfl
    unfold transcribe_audio
    rw [hn]
    norm_num [feedWindows, processResult, unsortedResponses, h2]
    rfl
  · intro h
    rcases List.pairwise_cons.mp h with ⟨h1, _⟩
    have h0 := h1 (0, 1, "a") (by simp)
    norm_num at h0

/-- The loop body on a final, non-empty-text response: entries appended,
offset advanced by 3. -/
theorem processResult_emit (d : Bool) (st : LoopState) (r : RecognitionResult)
    (hf : r.isFinal = true) (hne : ¬ pyStrip r.text = "") :
    (processResult d st r).1 =
      st.1 ++ r.result.map (fun w => (st.2.1 + w.start, st.2.1 + w.end_, w.word)) ∧
    (processResult d st r).2.1 = st.2.1 + 3 := by
  simp [processResult, hf, hne]

/-- The loop body on a non-final or empty-text response: entries and offset
unchanged. -/
theorem processResult_noemit (d : Bool) (st : LoopState) (r : RecognitionResult)
    (h : r.isFinal = false ∨ pyStrip r.text = "") :
    (processResult d st r).1 = st.1 ∧ (processResult d st r).2.1 = st.2.1 := by
  rcases h with h | h
  · simp [processResult, h]
  · by_cases hf : r.isFinal <;> simp [processResult, hf, h]

/-- One tame step preserves sortedness and the bound of all entry starts by
the current offset. -/
theorem processResult_sorted (d : Bool) (st : LoopState) (r : RecognitionResult)
    (hr : tameResult r)
    (hs : sortedByStart st.1) (hb : ∀ e ∈ st.1, e.1 ≤ st.2.1) :
    sortedByStart (processResult d st r).1 ∧
    ∀ e ∈ (processResult d st r).1, e.1 ≤ (processResult d st r).2.1 := by
  by_cases hf : r.isFinal
  · by_cases hemp : pyStrip r.text = ""
    · rcases processResult_noemit d st r (Or.inr hemp) with ⟨e1, e2⟩
      rw [e1, e2]
      exact ⟨hs, hb⟩
    · rcases processResult_emit d st r hf hemp with ⟨e1, e2⟩
      rw [e1, e2]
      constructor
      · rw [sortedByStart, List.pairwise_append]
        refine ⟨hs, ?_, ?_⟩
        · rw [List.pairwise_map]
          exact hr.1.imp (fun hab => add_le_add_left hab _)
        · intro a ha b hbm
          rcases List.mem_map.mp hbm with ⟨w, hw, rfl⟩
          have h0 := (hr.2 w hw).1
          have ha' := hb a ha
          simpa using le_add_of_le_of_nonneg ha' h0
      · intro e he
        rcases List.mem_append.mp he with he | he
        · have := hb e he
          linarith
        · rcases List.mem_map.mp he with ⟨w, hw, rfl⟩
          have := (hr.2 w hw).2
          simpa using by linarith
  · have hf' : r.isFinal = false := by simpa using hf
    rcases processResult_noemit d st r (Or.inl hf') with ⟨e1, e2⟩
    rw [e1, e2]
    exact ⟨hs, hb⟩

/-- The loop preserves sortedness and the offset bound under a tame
engine. -/
theorem feedWindows_sorted
    (responses : Nat → Except EngineRuntimeError RecognitionResult) (d : Bool)
    (hgood : ∀ i r, responses i = .ok r → tameResult r) :
    ∀ n i st st2, feedWindows responses d i n st = .ok st2 →
      sortedByStart st.1 → (∀ e ∈ st.1, e.1 ≤ st.2.1) →
      sortedByStart st2.1 ∧ ∀ e ∈ st2.1, e.1 ≤ st2.2.1 := by
  intro n
  induction n with
  | zero =>
    intro i st st2 h hs hb
    simp only [feedWindows] at h
    cases h
    exact ⟨hs, hb⟩
  | succ n ih =>
    intro i st st2 h hs hb
    simp only [feedWindows] at h
    cases hr : responses i with
    | error e => rw [hr] at h; cases h
    | ok r =>
      rw [hr] at h
      have hstep := processResult_sorted d st r (hgood i r hr) hs hb
      exact ih (i + 1) _ _ h hstep.1 hstep.2

/-- C2 amended: if every result the engine returns is tame — its words come
in non-decreasing relative-start order, with relative starts between 0 and
the 3-second offset step — then the subtitle sequence `transcribe_audio`
returns is non-decreasing in start. -/
theorem output_sorted_of_tame_engine
    (responses : Nat → Except EngineRuntimeError RecognitionResult)
    (hgood : ∀ i r, responses i = .ok r → tameResult r)
    (audio : List Int) (sample_rate : Nat) (model_path : String) (debug : Bool)
    (subs : List (ℚ × ℚ × String))
    (h : transcribe_audio audio sample_rate responses model_path debug = .ok subs) :
    sortedByStart subs := by
  unfold transcribe_audio at h
  cases hfw : feedWindows responses debug 0 (numWindows audio.length chunk_size)
      ([], 0, []) with
  | error e => rw [hfw] at h; cases h
  | ok st =>
    rw [hfw] at h
    have hsubs : subs = st.1 := by
      have : Except.ok (ε := EngineRuntimeError) st.1 = .ok subs := h
      simpa using this.symm
    subst hsubs
    exact (feedWindows_sorted responses debug hgood _ 0 ([], 0, []) st hfw
      List.Pairwise.nil (by simp)).1

/-- The spec-scenario engine is tame. -/
theorem scenarioResponses_tame :
    ∀ i r, scenarioResponses i = .ok r → tameResult r := by
  intro i r h
  have hnil : ∀ s : RecognitionResult, s.result = [] → tameResult s := by
    intro s hs
    constructor
    · rw [hs]; exact List.Pairwise.nil
    · rw [hs]; intro w hw; cases hw
  rcases i with _ | _ | _ | i
  · injection h with h'; rw [← h']; exact hnil _ rfl
  · injection h with h'
    rw [← h']
    refine ⟨?_, ?_⟩
    · refine List.Pairwise.cons ?_ (List.Pairwise.cons ?_ List.Pairwise.nil)
      · intro b hb
        simp only [List.mem_singleton] at hb
        subst hb
        norm_num
      · intro b hb
        simp at hb
    · intro w hw
      simp only [List.mem_cons, List.not_mem_nil, or_false] at hw
      rcases hw with rfl | rfl
      · exact ⟨le_refl 0, by norm_num⟩
      · constructor <;> norm_num
  · injection h with h'; rw [← h']; exact hnil _ rfl
  · injection h with h'; rw [← h']; exact hnil _ rfl

/-- Witness for `output_sorted_of_tame_engine` on the spec scenario. -/
theorem output_sorted_of_tame_engine_witness :
    sortedByStart [(0, 2/5, "hello"), (1/2, 9/10, "world")] :=
  output_sorted_of_tame_engine scenarioResponses scenarioResponses_tame
    (List.replicate 20000 0) 16000 "vosk-model-small-en-us-0.15" false _ (by
      have hlen : (List.replicate 20000 (0 : Int)).length = 20000 :=
        List.length_replicate 20000 0
      have hn : numWindows 20000 chunk_size = 3 := rfl
      have h1 : pyStrip "" = "" := by decide
      have h2 : ¬ pyStrip "hello world" = "" := by decide
      unfold transcribe_audio
      rw [hlen, hn]
      norm_num [feedWindows, processResult, scenarioResponses, h1, h2]
      rfl)

/-- One step preserves non-negativity of the offset and validity of every
entry, provided the response's words satisfy `0 ≤ start ≤ end`. -/
theorem processResult_valid (d : Bool) (st : LoopState) (r : RecognitionResult)
    (hr : ∀ w ∈ r.result, 0 ≤ w.start ∧ w.start ≤ w.end_)
    (ho : 0 ≤ st.2.1) (hv : ∀ e ∈ st.1, 0 ≤ e.1 ∧ e.1 ≤ e.2.1) :
    0 ≤ (processResult d st r).2.1 ∧
    ∀ e ∈ (processResult d st r).1, 0 ≤ e.1 ∧ e.1 ≤ e.2.1 := by
  by_cases hf : r.isFinal
  · by_cases hemp : pyStrip r.text = ""
    · rcases processResult_noemit d st r (Or.inr hemp) with ⟨e1, e2⟩
      rw [e1, e2]
      exact ⟨ho, hv⟩
    · rcases processResult_emit d st r hf hemp with ⟨e1, e2⟩
      rw [e1, e2]
      constructor
      · linarith
      · intro e he
        rcases List.mem_append.mp he with he | he
        · exact hv e he
        · rcases List.mem_map.mp he with ⟨w, hw, rfl⟩
          rcases hr w hw with ⟨hw1, hw2⟩
          constructor
          · simpa using by linarith
          · simpa using by linarith
  · have hf' : r.isFinal = false := by simpa using hf
    rcases processResult_noemit d st r (Or.inl hf') with ⟨e1, e2⟩
    rw [e1, e2]
    exact ⟨ho, hv⟩

/-- The loop preserves the validity invariant. -/
theorem feedWindows_valid
    (responses : Nat → Except EngineRuntimeError RecognitionResult) (d : Bool)
    (hgood : ∀ i r, responses i = .ok r →
      ∀ w ∈ r.result, 0 ≤ w.start ∧ w.start ≤ w.end_) :
    ∀ n i st st2, feedWindows responses d i n st = .ok st2 →
      0 ≤ st.2.1 → (∀ e ∈ st.1, 0 ≤ e.1 ∧ e.1 ≤ e.2.1) →
      0 ≤ st2.2.1 ∧ ∀ e ∈ st2.1, 0 ≤ e.1 ∧ e.1 ≤ e.2.1 := by
  intro n
  induction n with
  | zero =>
    intro i st st2 h ho hv
    simp only [feedWindows] at h
    cases h
    exact ⟨ho, hv⟩
  | succ n ih =>
    intro i st st2 h ho hv
    simp only [feedWindows] at h
    cases hr : responses i with
    | error e => rw [hr] at h; cases h
    | ok r =>
      rw [hr] at h
      have hstep := processResult_valid d st r (hgood i r hr) ho hv
      exact ih (i + 1) _ _ h hstep.1 hstep.2

/-- C9: when the engine reports every word with `0 ≤ relative start ≤
relative end`, every subtitle entry returned by `transcribe_audio`
satisfies `end ≥ start ≥ 0`. -/
theorem entries_valid
    (responses : Nat → Except EngineRuntimeError RecognitionResult)
    (hgood : ∀ i r, responses i = .ok r →
      ∀ w ∈ r.result, 0 ≤ w.start ∧ w.start ≤ w.end_)
    (audio : List Int) (sample_rate : Nat) (model_path : String) (debug : Bool)
    (subs : List (ℚ × ℚ × String))
    (h : transcribe_audio audio sample_rate responses model_path debug = .ok subs) :
    ∀ e ∈ subs, 0 ≤ e.1 ∧ e.1 ≤ e.2.1 := by
  unfold transcribe_audio at h
  cases hfw : feedWindows responses debug 0 (numWindows audio.length chunk_size)
      ([], 0, []) with
  | error e => rw [hfw] at h; cases h
  | ok st =>
    rw [hfw] at h
    have hsubs : subs = st.1 := by
      have hh : Except.ok (ε := EngineRuntimeError) st.1 = .ok subs := h
      simpa using hh.symm
    subst hsubs
    exact (feedWindows_valid responses debug hgood _ 0 ([], 0, []) st hfw
      le_rfl (by simp)).2

/-- Witness for `entries_valid`: the "world" entry of the spec scenario is
valid. -/
theorem entries_valid_witness :
    0 ≤ (((1 : ℚ)/2, (9 : ℚ)/10, "world") : ℚ × ℚ × String).1 ∧
    (((1 : ℚ)/2, (9 : ℚ)/10, "world") : ℚ × ℚ × String).1 ≤
      (((1 : ℚ)/2, (9 : ℚ)/10, "world") : ℚ × ℚ × String).2.1 :=
  entries_valid scenarioResponses (by
      intro i r h
      have hnil : ∀ s : RecognitionResult, s.result = [] →
          ∀ w ∈ s.result, 0 ≤ w.start ∧ w.start ≤ w.end_ := by
        intro s hs w hw
        rw [hs] at hw
        cases hw
      rcases i with _ | _ | _ | i
      · injection h with h'; rw [← h']; exact hnil _ rfl
      · injection h with h'
        rw [← h']
        intro w hw
        simp only [List.mem_cons, List.not_mem_nil, or_false] at hw
        rcases hw with rfl | rfl
        · exact ⟨le_refl 0, by norm_num⟩
        · constructor <;> norm_num
      · injection h with h'; rw [← h']; exact hnil _ rfl
      · injection h with h'; rw [← h']; exact hnil _ rfl)
    (List.replicate 20000 0) 16000 "vosk-model-small-en-us-0.15" false _ (by
      have hlen : (List.replicate 20000 (0 : Int)).length = 20000 :=
        List.length_replicate 20000 0
      have hn : numWindows 20000 chunk_size = 3 := rfl
      have h1 : pyStrip "" = "" := by decide
      have h2 : ¬ pyStrip "hello world" = "" := by decide
      unfold transcribe_audio
      rw [hlen, hn]
      norm_num [feedWindows, processResult, scenarioResponses, h1, h2]
      rfl)
    ((1 : ℚ)/2, (9 : ℚ)/10, "world") (by simp)

/-- An error raised at window `i + k`, with the `k` windows before it
succeeding, aborts the loop with that error. -/
theorem feedWindows_error
    (responses : Nat → Except EngineRuntimeError RecognitionResult) (d : Bool)
    (e : EngineRuntimeError) :
    ∀ k i n st, k < n → responses (i + k) = .error e →
      (∀ j, j < k → ∃ r, responses (i + j) = .ok r) →
      feedWindows responses d i n st = .error e := by
  intro k
  induction k with
  | zero =>
    intro i n st hn hfail _
    cases n with
    | zero => omega
    | succ n =>
      simp only [Nat.add_zero] at hfail
      simp [feedWindows, hfail]
  | succ k ih =>
    intro i n st hn hfail hok
    cases n with
    | zero => omega
    | succ n =>
      rcases hok 0 (Nat.succ_pos k) with ⟨r, hr⟩
      simp only [Nat.add_zero] at hr
      have hstep : feedWindows responses d i (n + 1) st =
          feedWindows responses d (i + 1) n (processResult d st r) := by
        simp [feedWindows, hr]
      rw [hstep]
      refine ih (i + 1) n _ (by omega) ?_ ?_
      · have : i + 1 + k = i + (k + 1) := by omega
        rw [this]
        exact hfail
      · intro j hj
        have : i + 1 + j = i + (j + 1) := by omega
        rw [this]
        exact hok (j + 1) (by omega)

/-- C8: if the engine raises on some window within the buffer, with all
earlier feed calls succeeding, `transcribe_audio` fails with that
`EngineRuntimeError` and returns no subtitle sequence. -/
theorem feed_failure_fatal (audio : List Int) (sample_rate : Nat)
    (responses : Nat → Except EngineRuntimeError RecognitionResult)
    (model_path : String) (debug : Bool) (e : EngineRuntimeError) (k : Nat)
    (hk : k < numWindows audio.length chunk_size)
    (hfail : responses k = .error e)
    (hok : ∀ j, j < k → ∃ r, responses j = .ok r) :
    transcribe_audio audio sample_rate responses model_path debug = .error e := by
  unfold transcribe_audio
  rw [feedWindows_error responses debug e k 0 _ _ hk (by simpa using hfail)
    (by simpa using hok)]
  rfl

/-- Witness for `feed_failure_fatal`: an 8001-sample buffer (2 windows) whose
engine raises on window 1. -/
theorem feed_failure_fatal_witness :
    transcribe_audio (List.replicate 8001 0) 16000 failResponses "m" false =
      .error ⟨"engine failure"⟩ :=
  feed_failure_fatal (List.replicate 8001 0) 16000 failResponses "m" false
    ⟨"engine failure"⟩ 1
    (by rw [List.length_replicate]; decide)
    rfl
    (by
      intro j hj
      interval_cases j
      exact ⟨⟨false, "", []⟩, rfl⟩)

/-- For a non-empty buffer the window count is one more than that of the
buffer with one window removed. -/
theorem numWindows_pos_eq (len c : Nat) (hc : 0 < c) (hl : 0 < len) :
    numWindows len c = (len - 1) / c + 1 := by
  unfold numWindows
  rw [show len + c - 1 = (len - 1) + c by omega, Nat.add_div_right _ hc]

/-- Peeling one window off the front of a non-empty buffer. -/
theorem numWindows_succ (len c : Nat) (hc : 0 < c) (hl : 0 < len) :
    numWindows len c = numWindows (len - c) c + 1 := by
  rcases le_or_lt len c with h | h
  · have h0 : len - c = 0 := by omega
    rw [numWindows_pos_eq len c hc hl, h0]
    have h1 : (len - 1) / c = 0 := Nat.div_eq_of_lt (by omega)
    have h2 : numWindows 0 c = 0 := Nat.div_eq_of_lt (by omega)
    omega
  · rw [numWindows_pos_eq len c hc hl, numWindows_pos_eq (len - c) c hc (by omega)]
    have h1 : len - 1 = (len - c - 1) + c := by omega
    rw [h1, Nat.add_div_right _ hc]

/-- A buffer of at most one window's worth of samples yields at most one
window. -/
theorem numWindows_le_one (len c : Nat) (hc : 0 < c) (h : len ≤ c) :
    numWindows len c ≤ 1 := by
  have h2 : (len + c - 1) / c < 2 := (Nat.div_lt_iff_lt_mul hc).mpr (by omega)
  unfold numWindows
  omega

/-- The window count covers the whole buffer. -/
theorem le_numWindows_mul (len c : Nat) (hc : 0 < c) :
    len ≤ numWindows len c * c := by
  rcases Nat.eq_zero_or_pos len with h | h
  · subst h; exact Nat.zero_le _
  · rw [numWindows_pos_eq len c hc h]
    have hdm := Nat.div_add_mod (len - 1) c
    have hmod := Nat.mod_lt (len - 1) hc
    calc len = c * ((len - 1) / c) + (len - 1) % c + 1 := by omega
    _ ≤ c * ((len - 1) / c) + c := by omega
    _ = ((len - 1) / c + 1) * c := by ring

/-- Concatenating the first `n` windows gives the first `n * c` samples. -/
theorem windowsAux_flatten (c : Nat) :
    ∀ n (a : List Int), (windowsAux c a n).flatten = a.take (n * c) := by
  intro n
  induction n with
  | zero => intro a; simp [windowsAux]
  | succ n ih =>
    intro a
    simp only [windowsAux, List.flatten_cons, ih]
    rw [show (n + 1) * c = c + n * c by ring, List.take_add]

/-- All windows of a buffer are non-empty, at most `c` samples long, and all
but the last exactly `c` samples long. -/
theorem windowsAux_lengths (c : Nat) (hc : 0 < c) :
    ∀ n (a : List Int), numWindows a.length c = n →
      (∀ w ∈ (windowsAux c a n).dropLast, w.length = c) ∧
      (∀ w ∈ windowsAux c a n, 0 < w.length ∧ w.length ≤ c) := by
  intro n
  induction n with
  | zero =>
    intro a _
    constructor <;> intro w hw <;> simp [windowsAux] at hw
  | succ n ih =>
    intro a hn
    have hpos : 0 < a.length := by
      by_contra h
      have h0 : a.length = 0 := by omega
      rw [h0] at hn
      have h1 : numWindows 0 c = 0 := Nat.div_eq_of_lt (by omega)
      omega
    have htail : numWindows (a.drop c).length c = n := by
      rw [List.length_drop]
      have := numWindows_succ a.length c hc hpos
      omega
    rcases ih (a.drop c) htail with ⟨ih1, ih2⟩
    constructor
    · intro w hw
      cases n with
      | zero => simp [windowsAux] at hw
      | succ m =>
        have hgt : c < a.length := by
          by_contra hle
          have := numWindows_le_one a.length c hc (by omega)
          omega
        simp only [windowsAux, List.dropLast_cons₂, List.mem_cons] at hw
        rcases hw with rfl | hw'
        · rw [List.length_take]; omega
        · exact ih1 w (by simpa [windowsAux] using hw')
    · intro w hw
      simp only [windowsAux, List.mem_cons] at hw
      rcases hw with rfl | hw'
      · rw [List.length_take]; constructor <;> omega
      · exact ih2 w hw'

/-- C7: the windowing cuts the buffer into consecutive non-overlapping
windows that concatenate back to the buffer in order; every window except
possibly the last has exactly `chunk_size` samples, every window is
non-empty and at most `chunk_size` samples; and re-running the windowing on
the same buffer yields the same windows. -/
theorem windows_partition (audio : List Int) :
    (windows audio chunk_size).flatten = audio ∧
    (∀ w ∈ (windows audio chunk_size).dropLast, w.length = chunk_size) ∧
    (∀ w ∈ windows audio chunk_size, 0 < w.length ∧ w.length ≤ chunk_size) ∧
    windows audio chunk_size = windows audio chunk_size := by
  have hc : 0 < chunk_size := by norm_num [chunk_size]
  refine ⟨?_, ?_, ?_, rfl⟩
  · rw [windows, windowsAux_flatten]
    exact List.take_of_length_le (le_numWindows_mul _ _ hc)
  · exact (windowsAux_lengths chunk_size hc _ audio rfl).1
  · exact (windowsAux_lengths chunk_size hc _ audio rfl).2

/-- The entry list and offset produced by one loop step do not depend on the
debug toggle or on the print trace; only the trace component does. -/
theorem processResult_debug (d d' : Bool) (s : List (ℚ × ℚ × String)) (o : ℚ)
    (l l' : List RecognitionResult) (r : RecognitionResult) :
    ((processResult d (s, o, l) r).1, (processResult d (s, o, l) r).2.1) =
      ((processResult d' (s, o, l') r).1, (processResult d' (s, o, l') r).2.1) := by
  by_cases hf : r.isFinal <;> by_cases he : pyStrip r.text = "" <;>
    simp [processResult, hf, he]

/-- One-step unfolding of the loop on a successful feed call. -/
theorem feedWindows_succ_ok
    (responses : Nat → Except EngineRuntimeError RecognitionResult) (d : Bool)
    (i n : Nat) (st : LoopState) (r : RecognitionResult)
    (hr : responses i = .ok r) :
    feedWindows responses d i (n + 1) st =
      feedWindows responses d (i + 1) n (processResult d st r) := by
  simp [feedWindows, hr]

/-- One-step unfolding of the loop on a failing feed call. -/
theorem feedWindows_succ_error
    (responses : Nat → Except EngineRuntimeError RecognitionResult) (d : Bool)
    (i n : Nat) (st : LoopState) (e : EngineRuntimeError)
    (hr : responses i = .error e) :
    feedWindows responses d i (n + 1) st = .error e := by
  simp [feedWindows, hr]

/-- The loop's entry list and offset do not depend on the debug toggle. -/
theorem feedWindows_debug
    (responses : Nat → Except EngineRuntimeError RecognitionResult)
    (d1 d2 : Bool) :
    ∀ n i (subs : List (ℚ × ℚ × String)) (off : ℚ)
      (log1 log2 : List RecognitionResult),
      (feedWindows responses d1 i n (subs, off, log1)).map
          (fun st => (st.1, st.2.1)) =
        (feedWindows responses d2 i n (subs, off, log2)).map
          (fun st => (st.1, st.2.1)) := by
  intro n
  induction n with
  | zero =>
    intro i subs off log1 log2
    simp [feedWindows, Except.map]
  | succ n ih =>
    intro i subs off log1 log2
    cases hr : responses i with
    | error e =>
      rw [feedWindows_succ_error responses d1 i n _ e hr,
        feedWindows_succ_error responses d2 i n _ e hr]
    | ok r =>
      have key := processResult_debug d1 d2 subs off log1 log2 r
      have h1 := congrArg Prod.fst key
      have h2 := congrArg Prod.snd key
      simp only at h1 h2
      have hp2 : processResult d2 (subs, off, log2) r =
          ((processResult d1 (subs, off, log1) r).1,
            (processResult d1 (subs, off, log1) r).2.1,
            (processResult d2 (subs, off, log2) r).2.2) := by
        rw [h1, h2]
      rw [feedWindows_succ_ok responses d1 i n _ r hr,
        feedWindows_succ_ok responses d2 i n _ r hr, hp2]
      exact ih (i + 1) (processResult d1 (subs, off, log1) r).1
        (processResult d1 (subs, off, log1) r).2.1
        (processResult d1 (subs, off, log1) r).2.2
        (processResult d2 (subs, off, log2) r).2.2

/-- C10: two runs of `transcribe_audio` on the same buffer, sample rate and
engine responses that differ only in the debug toggle return the same
result — the toggle changes only what is printed, never the subtitle
sequence or the error. -/
theorem debug_toggle_pure (audio : List Int) (sample_rate : Nat)
    (responses : Nat → Except EngineRuntimeError RecognitionResult)
    (model_path : String) (d1 d2 : Bool) :
    transcribe_audio audio sample_rate responses model_path d1 =
      transcribe_audio audio sample_rate responses model_path d2 := by
  unfold transcribe_audio
  have h := feedWindows_debug responses d1 d2
    (numWindows audio.length chunk_size) 0 [] 0 [] []
  cases h1 : feedWindows responses d1 0 (numWindows audio.length chunk_size)
      ([], 0, []) with
  | error e =>
    cases h2 : feedWindows responses d2 0 (numWindows audio.length chunk_size)
        ([], 0, []) with
    | error e' =>
      rw [h1, h2] at h
      simp only [Except.map] at h ⊢
      simp at h
      rw [h]
    | ok st =>
      rw [h1, h2] at h
      simp [Except.map] at h
  | ok st =>
    cases h2 : feedWindows responses d2 0 (numWindows audio.length chunk_size)
        ([], 0, []) with
    | error e' =>
      rw [h1, h2] at h
      simp [Except.map] at h
    | ok st' =>
      rw [h1, h2] at h
      simp only [Except.map] at h ⊢
      simp only [Except.ok.injEq] at h
      have := congrArg Prod.fst h
      simp only at this
      rw [this]
